import Mathlib

/-!
Shallow embedding of `src/lazy_alloc.h`: a nested bump-pointer (arena)
allocator with a fixed-capacity per-thread stack of arenas.

Modelling decisions, kept faithful to the C source:

* `size_t` values are natural numbers; `size_t` addition in the source
  (`arena->offset + size` in `lazy_alloc`) wraps modulo `2 ^ 64`, written
  explicitly as `% SIZE_MOD` (LP64 platform, 64-bit `size_t`).
* A pointer is modelled as a natural-number address. The backing buffer
  address an arena receives from the host `malloc` is an oracle input to
  `create_lazy_context`: the parameter `mem : Option Nat` is `none` when the
  host allocator fails (either of the two `malloc` calls in the source; both
  failure paths return the sentinel and leave the stack unchanged) and
  `some addr` when it succeeds with buffer address `addr`.
* The C stack is a fixed array `arenas[MAX_LAZY_STACK]` plus an `int top`
  (`-1` when empty); only the slots `0 .. top` are ever read or written, so
  the live prefix is modelled as a list (index 0 = bottom, last = top) and
  `top = length - 1`.
* `create_lazy_context` returns `uint8_t`; `return -1` in the source yields
  the value `255` after the standard unsigned conversion, and a successful
  return value `top` lies in `0 .. 15`, unchanged by the conversion.
-/

namespace LazyAlloc

/-- Modulus of `size_t` arithmetic (64-bit `size_t`, LP64). -/
def SIZE_MOD : Nat := 2 ^ 64

/-- Source: `#define MAX_LAZY_STACK 16`. -/
def MAX_LAZY_STACK : Nat := 16

/-- Source: `LazyArena` struct — backing memory pointer, total size,
current offset. -/
structure LazyArena where
  memory : Nat
  size : Nat
  offset : Nat
deriving DecidableEq

/-- Source: `LazyArenaStack` — the live arenas, bottom first; the C field
`top` equals `arenas.length - 1` (`-1` when the list is empty). -/
structure LazyArenaStack where
  arenas : List LazyArena
deriving DecidableEq

/-- Initial per-thread state: `{ .top = -1 }`, no live arenas. -/
def initStack : LazyArenaStack := ⟨[]⟩

/-- Source: `create_lazy_context(size_t size)`. Fails with the sentinel
`255` (`(uint8_t)(-1)`) when `top + 1 >= MAX_LAZY_STACK`, i.e. when
`arenas.length ≥ 16`, or when the host allocator fails (`mem = none`);
otherwise pushes a fresh arena `{memory := addr, size := size, offset := 0}`
and returns the new top index. -/
def create_lazy_context (mem : Option Nat) (size : Nat) (s : LazyArenaStack) :
    Nat × LazyArenaStack :=
  if MAX_LAZY_STACK ≤ s.arenas.length then (255, s)
  else
    match mem with
    | none => (255, s)
    | some addr =>
        (s.arenas.length,
         ⟨s.arenas ++ [{ memory := addr, size := size, offset := 0 }]⟩)

/-- Source: `lazy_alloc(size_t size)`. Returns `NULL` (`none`) when the
stack is empty (`top < 0`) or when the wrapped `size_t` sum
`arena->offset + size` exceeds `arena->size`; otherwise returns the pointer
`memory + offset` and advances `offset` by `size` (modulo `2 ^ 64`). -/
def lazy_alloc (size : Nat) (s : LazyArenaStack) : Option Nat × LazyArenaStack :=
  match s.arenas.getLast? with
  | none => (none, s)
  | some arena =>
      if arena.size < (arena.offset + size) % SIZE_MOD then (none, s)
      else
        (some (arena.memory + arena.offset),
         ⟨s.arenas.dropLast ++
            [{ arena with offset := (arena.offset + size) % SIZE_MOD }]⟩)

/-- Source: `destroy_lazy_context(uint8_t context)`. No-op when the stack
is empty; otherwise pops (and frees) arenas while `top ≥ context`, which
leaves exactly the first `context` arenas. -/
def destroy_lazy_context (context : Nat) (s : LazyArenaStack) : LazyArenaStack :=
  if s.arenas.length = 0 then s
  else ⟨s.arenas.take context⟩

/-- Source: `reset_lazy_context()`. When the stack is non-empty, sets the
top arena's offset to `0`; otherwise does nothing. -/
def reset_lazy_context (s : LazyArenaStack) : LazyArenaStack :=
  match s.arenas.getLast? with
  | none => s
  | some arena => ⟨s.arenas.dropLast ++ [{ arena with offset := 0 }]⟩

/-- Runs a sequence of `create_lazy_context` calls, collecting the returned
identifiers; each element of `inputs` carries the `malloc` oracle and the
requested size for one call. -/
def run_creates (inputs : List (Option Nat × Nat)) (s : LazyArenaStack) :
    List Nat × LazyArenaStack :=
  match inputs with
  | [] => ([], s)
  | (m, sz) :: rest =>
      let r := create_lazy_context m sz s
      let rr := run_creates rest r.2
      (r.1 :: rr.1, rr.2)

/-- Spec §3 invariant of a single arena: `0 <= offset <= size` (the lower
bound is inherent in `Nat`). -/
def arenaWF (a : LazyArena) : Prop := a.offset ≤ a.size

/-- Spec §3 invariant of the stack: every live arena is well-formed and
`0 <= depth <= MAX_STACK`. -/
def stackWF (s : LazyArenaStack) : Prop :=
  (∀ a ∈ s.arenas, arenaWF a) ∧ s.arenas.length ≤ MAX_LAZY_STACK

instance (a : LazyArena) : Decidable (arenaWF a) :=
  inferInstanceAs (Decidable (a.offset ≤ a.size))

instance (s : LazyArenaStack) : Decidable (stackWF s) :=
  inferInstanceAs
    (Decidable ((∀ a ∈ s.arenas, arenaWF a) ∧ s.arenas.length ≤ MAX_LAZY_STACK))

/-- A list with a known last element is its `dropLast` followed by that
element. -/
lemma dropLast_concat_of_getLast? {α : Type _} :
    ∀ (l : List α) (a : α), l.getLast? = some a → l.dropLast ++ [a] = l
  | [], a, h => by simp at h
  | [x], a, h => by
      simp [List.getLast?] at h
      simp [h]
  | x :: y :: t, a, h => by
      have ht : (y :: t).getLast? = some a := by
        simpa [List.getLast?_cons_cons] using h
      have := dropLast_concat_of_getLast? (y :: t) a ht
      simpa [List.dropLast_cons_of_ne_nil] using this

/-- C8: calling `lazy_alloc` on an empty stack returns `NULL` and leaves
the state unchanged, for every requested size. -/
theorem lazy_alloc_empty_stack (size : Nat) (s : LazyArenaStack)
    (h : s.arenas = []) : lazy_alloc size s = (none, s) := by
  simp [lazy_alloc, h]

/-- Witness for C8 at a concrete input. -/
theorem lazy_alloc_empty_stack_witness :
    lazy_alloc 42 initStack = (none, initStack) :=
  lazy_alloc_empty_stack 42 initStack rfl

/-- C1: evaluation of `lazy_alloc` at a failing input. With the top arena of
size 100 and offset 10 (remaining space 90), a request of `2 ^ 64 - 5` bytes
is strictly larger than the remaining space, yet the `size_t` sum
`offset + size` wraps to `5 ≤ 100`, so the bounds check passes: the call
returns a pointer (`memory + 10`) and mutates the offset to 5, where the
claim requires `NULL` and an unchanged offset. -/
theorem lazy_alloc_overflow_bug :
    100 - 10 < 2 ^ 64 - 5 ∧
    lazy_alloc (2 ^ 64 - 5) ⟨[⟨0, 100, 10⟩]⟩ = (some 10, ⟨[⟨0, 100, 5⟩]⟩) :=
  ⟨by decide, rfl⟩

/-- C4: evaluation at a failing input. In the single context created with
size 100, the three requests 10, `2 ^ 64 - 5`, 10 all succeed: the second
bypasses the bounds check by `size_t` wraparound, so the sum of granted
request sizes exceeds 100, and the third returns pointer 5, whose range
[5, 15) overlaps the first allocation's range [0, 10) of pointer 0. -/
theorem lazy_alloc_overlap_bug :
    ((lazy_alloc 10
        (create_lazy_context (some 0) 100 initStack).2).1 = some 0 ∧
     (lazy_alloc (2 ^ 64 - 5)
        (lazy_alloc 10 (create_lazy_context (some 0) 100 initStack).2).2).1 =
       some 10 ∧
     (lazy_alloc 10
        (lazy_alloc (2 ^ 64 - 5)
          (lazy_alloc 10
            (create_lazy_context (some 0) 100 initStack).2).2).2).1 =
       some 5) ∧
    100 < 10 + (2 ^ 64 - 5) ∧ 5 < 0 + 10 ∧ 0 < 5 + 10 :=
  ⟨⟨rfl, rfl, rfl⟩, by decide, by decide, by decide⟩

/-- C2: `destroy_lazy_context k` on a stack of depth `n > k` keeps exactly
the arenas at indices `0 .. k-1` (popping those at `k .. n-1`), leaving
depth `k`; repeating the call is a no-op; calling it with `k` at or beyond
the depth, or on an empty stack, is a no-op. -/
theorem destroy_lazy_context_cascade (s : LazyArenaStack) (k : Nat) :
    (k < s.arenas.length →
        (destroy_lazy_context k s).arenas = s.arenas.take k ∧
        (destroy_lazy_context k s).arenas.length = k ∧
        (destroy_lazy_context k s).arenas ++ s.arenas.drop k = s.arenas ∧
        destroy_lazy_context k (destroy_lazy_context k s) =
          destroy_lazy_context k s) ∧
    (s.arenas.length ≤ k → destroy_lazy_context k s = s) ∧
    (s.arenas = [] → destroy_lazy_context k s = s) := by
  obtain ⟨l⟩ := s
  refine ⟨fun hk => ?_, fun hk => ?_, fun hk => ?_⟩
  · have hk' : k < l.length := hk
    have hne : ¬ l.length = 0 := by omega
    refine ⟨by simp [destroy_lazy_context, hne], ?_, ?_, ?_⟩
    · simp only [destroy_lazy_context, if_neg hne, List.length_take]
      omega
    · simp [destroy_lazy_context, hne]
    · rcases Nat.eq_zero_or_pos k with hk0 | hk0
      · subst hk0
        simp [destroy_lazy_context, hne]
      · have hlen : (l.take k).length = k := by
          rw [List.length_take]
          omega
        have hne2 : ¬ (l.take k).length = 0 := by omega
        simp [destroy_lazy_context, hne, hne2, List.take_take]
  · rcases Nat.eq_zero_or_pos l.length with h0 | h0
    · simp [destroy_lazy_context, h0]
    · have hne : ¬ l.length = 0 := by omega
      simp only [destroy_lazy_context, if_neg hne]
      simp at hk
      simp [List.take_of_length_le hk]
  · subst hk
    simp [destroy_lazy_context]

/-- Witness for C2 at depth 3 with `k = 1`: the cascade pops indices 1 and
2, leaves depth 1, repeating is a no-op, and `k = 5` beyond the depth is a
no-op. -/
theorem destroy_lazy_context_cascade_witness :
    (destroy_lazy_context 1 ⟨[⟨0, 8, 0⟩, ⟨8, 4, 2⟩, ⟨12, 2, 1⟩]⟩).arenas =
        [⟨0, 8, 0⟩] ∧
    destroy_lazy_context 5 ⟨[⟨0, 8, 0⟩, ⟨8, 4, 2⟩, ⟨12, 2, 1⟩]⟩ =
        ⟨[⟨0, 8, 0⟩, ⟨8, 4, 2⟩, ⟨12, 2, 1⟩]⟩ := by
  have h := destroy_lazy_context_cascade ⟨[⟨0, 8, 0⟩, ⟨8, 4, 2⟩, ⟨12, 2, 1⟩]⟩ 1
  have h5 := destroy_lazy_context_cascade ⟨[⟨0, 8, 0⟩, ⟨8, 4, 2⟩, ⟨12, 2, 1⟩]⟩ 5
  exact ⟨by rw [(h.1 (by decide)).1]; rfl, h5.2.1 (by decide)⟩

/-- C9: every `create_lazy_context` call either fails, returning the
sentinel `255` (the `uint8_t` image of `-1`) with the stack unchanged, or
succeeds, returning an identifier at most `MAX_LAZY_STACK - 1 = 15`, so the
sentinel never collides with a valid identifier; and `destroy_lazy_context`
applied to the sentinel is a no-op on every reachable stack (depth at most
`MAX_LAZY_STACK`). -/
theorem create_sentinel_destroy_noop (s : LazyArenaStack) (mem : Option Nat)
    (size : Nat) (h : s.arenas.length ≤ MAX_LAZY_STACK) :
    (((create_lazy_context mem size s).1 = 255 ∧
        (create_lazy_context mem size s).2 = s) ∨
      ((create_lazy_context mem size s).1 = s.arenas.length ∧
       (create_lazy_context mem size s).1 ≤ MAX_LAZY_STACK - 1)) ∧
    destroy_lazy_context 255 s = s := by
  constructor
  · by_cases hfull : MAX_LAZY_STACK ≤ s.arenas.length
    · left
      simp [create_lazy_context, hfull]
    · cases mem with
      | none => left; simp [create_lazy_context, hfull]
      | some addr =>
          right
          simp only [create_lazy_context, if_neg hfull]
          simp [MAX_LAZY_STACK] at hfull ⊢
          omega
  · obtain ⟨l⟩ := s
    rcases Nat.eq_zero_or_pos l.length with h0 | h0
    · simp [destroy_lazy_context, h0]
    · have hne : ¬ l.length = 0 := by omega
      simp only [destroy_lazy_context, if_neg hne]
      simp [MAX_LAZY_STACK] at h
      simp [List.take_of_length_le (by omega : l.length ≤ 255)]

/-- Witness for C9 on a stack of depth 1: creating on it succeeds with
identifier 1 and destroying context 255 changes nothing. -/
theorem create_sentinel_destroy_noop_witness :
    ((((create_lazy_context (some 99) 7 ⟨[⟨0, 8, 0⟩]⟩).1 = 255 ∧
        (create_lazy_context (some 99) 7 ⟨[⟨0, 8, 0⟩]⟩).2 = ⟨[⟨0, 8, 0⟩]⟩) ∨
      ((create_lazy_context (some 99) 7 ⟨[⟨0, 8, 0⟩]⟩).1 =
          (⟨[⟨0, 8, 0⟩]⟩ : LazyArenaStack).arenas.length ∧
       (create_lazy_context (some 99) 7 ⟨[⟨0, 8, 0⟩]⟩).1 ≤
          MAX_LAZY_STACK - 1)) ∧
     destroy_lazy_context 255 ⟨[⟨0, 8, 0⟩]⟩ = ⟨[⟨0, 8, 0⟩]⟩) :=
  create_sentinel_destroy_noop ⟨[⟨0, 8, 0⟩]⟩ (some 99) 7 (by decide)

/-- C10: with an open context whose top arena satisfies the `size_t`-range
and offset invariants, `lazy_alloc 0` succeeds, returning exactly
`memory + offset` (one past the end when the arena is full) and leaving the
whole stack unchanged. -/
theorem lazy_alloc_zero (s : LazyArenaStack) (a : LazyArena)
    (h : s.arenas.getLast? = some a) (hwf : a.offset ≤ a.size)
    (hsz : a.size < SIZE_MOD) :
    lazy_alloc 0 s = (some (a.memory + a.offset), s) := by
  obtain ⟨l⟩ := s
  have hoff : (a.offset + 0) % SIZE_MOD = a.offset := by
    rw [Nat.add_zero]
    exact Nat.mod_eq_of_lt (lt_of_le_of_lt hwf hsz)
  have hc : ¬ a.size < (a.offset + 0) % SIZE_MOD := by
    rw [hoff]
    omega
  have hl : l.dropLast ++ [a] = l := dropLast_concat_of_getLast? l a h
  simp only [lazy_alloc, h, if_neg hc, hoff]
  rw [show ({ a with offset := a.offset } : LazyArena) = a from rfl, hl,
    if_neg (show ¬ a.size < a.offset by omega)]

/-- Witness for C10 on a full arena (`offset = size = 6`): the zero-size
request still succeeds, returning the one-past-the-end pointer 106. -/
theorem lazy_alloc_zero_witness :
    lazy_alloc 0 ⟨[⟨100, 6, 6⟩]⟩ = (some (100 + 6), ⟨[⟨100, 6, 6⟩]⟩) :=
  lazy_alloc_zero ⟨[⟨100, 6, 6⟩]⟩ ⟨100, 6, 6⟩ rfl (by decide) (by decide)

/-- Unfolding of `create_lazy_context` when the stack is full. -/
lemma create_lazy_context_full (s : LazyArenaStack) (mem : Option Nat)
    (size : Nat) (h : MAX_LAZY_STACK ≤ s.arenas.length) :
    create_lazy_context mem size s = (255, s) := by
  simp [create_lazy_context, h]

/-- Unfolding of `create_lazy_context` on a successful push. -/
lemma create_lazy_context_push (s : LazyArenaStack) (addr size : Nat)
    (h : ¬ MAX_LAZY_STACK ≤ s.arenas.length) :
    create_lazy_context (some addr) size s =
      (s.arenas.length, ⟨s.arenas ++ [⟨addr, size, 0⟩]⟩) := by
  simp [create_lazy_context, h]

/-- The `i`-th identifier handed out by a run of `create_lazy_context`
calls whose host allocations all succeed: the creation-order index offset
by the starting depth, or the sentinel `255` once the capacity of
`MAX_LAZY_STACK` arenas is reached. -/
lemma run_creates_get (inputs : List (Option Nat × Nat)) (s : LazyArenaStack)
    (hm : ∀ p ∈ inputs, p.1 ≠ none) :
    ∀ i, i < inputs.length →
      (run_creates inputs s).1[i]? =
        some (if s.arenas.length + i < MAX_LAZY_STACK then s.arenas.length + i
              else 255) := by
  induction inputs generalizing s with
  | nil => intro i hi; simp at hi
  | cons p rest ih =>
      obtain ⟨m, sz⟩ := p
      have hm0 : m ≠ none := hm (m, sz) (List.mem_cons_self _ _)
      have hmrest : ∀ p ∈ rest, p.1 ≠ none :=
        fun p hp => hm p (List.mem_cons_of_mem _ hp)
      obtain ⟨addr, rfl⟩ := Option.ne_none_iff_exists'.mp hm0
      intro i hi
      by_cases hfull : MAX_LAZY_STACK ≤ s.arenas.length
      · simp only [run_creates, create_lazy_context_full s _ sz hfull]
        cases i with
        | zero =>
            simp only [List.getElem?_cons_zero]
            rw [if_neg (by omega)]
        | succ j =>
            simp only [List.getElem?_cons_succ]
            rw [ih s hmrest j (by simpa using hi)]
            rw [if_neg (by omega), if_neg (by omega)]
      · simp only [run_creates, create_lazy_context_push s addr sz hfull]
        cases i with
        | zero =>
            simp only [List.getElem?_cons_zero]
            rw [if_pos (by omega), Nat.add_zero]
        | succ j =>
            simp only [List.getElem?_cons_succ]
            have hih :=
              ih ⟨s.arenas ++ [{ memory := addr, size := sz, offset := 0 }]⟩
                hmrest j (by simpa using hi)
            rw [hih]
            have harith :
                (⟨s.arenas ++ [{ memory := addr, size := sz, offset := 0 }]⟩ :
                    LazyArenaStack).arenas.length + j =
                  s.arenas.length + (j + 1) := by
              simp [List.length_append]
              omega
            rw [harith]

/-- Depth of the stack after a run of `create_lazy_context` calls whose
host allocations all succeed: it grows by one per call, saturating at
`MAX_LAZY_STACK`. -/
lemma run_creates_length (inputs : List (Option Nat × Nat))
    (s : LazyArenaStack) (hm : ∀ p ∈ inputs, p.1 ≠ none)
    (hs : s.arenas.length ≤ MAX_LAZY_STACK) :
    (run_creates inputs s).2.arenas.length =
      min (s.arenas.length + inputs.length) MAX_LAZY_STACK := by
  induction inputs generalizing s with
  | nil =>
      simp only [run_creates, List.length_nil, Nat.add_zero]
      omega
  | cons p rest ih =>
      obtain ⟨m, sz⟩ := p
      have hm0 : m ≠ none := hm (m, sz) (List.mem_cons_self _ _)
      have hmrest : ∀ p ∈ rest, p.1 ≠ none :=
        fun p hp => hm p (List.mem_cons_of_mem _ hp)
      obtain ⟨addr, rfl⟩ := Option.ne_none_iff_exists'.mp hm0
      by_cases hfull : MAX_LAZY_STACK ≤ s.arenas.length
      · simp only [run_creates, create_lazy_context_full s _ sz hfull]
        rw [ih s hmrest hs]
        simp only [List.length_cons]
        omega
      · simp only [run_creates, create_lazy_context_push s addr sz hfull]
        have hih :=
          ih ⟨s.arenas ++ [{ memory := addr, size := sz, offset := 0 }]⟩
            hmrest (by simp [List.length_append]; omega)
        rw [hih]
        dsimp only
        simp only [List.length_append, List.length_cons, List.length_nil]
        omega

/-- C3: (a) on a stack already holding `MAX_LAZY_STACK` arenas, any further
`create_lazy_context` call returns the sentinel `255` and leaves the whole
stack — depth and every arena — unchanged; (b) in any run of
`create_lazy_context` calls from the empty stack whose host allocations all
succeed, a call fails exactly when it is beyond the `MAX_LAZY_STACK`-th, so
the `(MAX_LAZY_STACK + 1)`-th call is the first to fail. -/
theorem create_lazy_context_stack_full :
    (∀ (s : LazyArenaStack) (mem : Option Nat) (size : Nat),
        s.arenas.length = MAX_LAZY_STACK →
        create_lazy_context mem size s = (255, s)) ∧
    (∀ inputs : List (Option Nat × Nat), (∀ p ∈ inputs, p.1 ≠ none) →
        ∀ i, i < inputs.length →
          ((run_creates inputs initStack).1[i]? = some 255 ↔
            MAX_LAZY_STACK ≤ i)) := by
  constructor
  · intro s mem size h
    exact create_lazy_context_full s mem size (le_of_eq h.symm)
  · intro inputs hm i hi
    rw [run_creates_get inputs initStack hm i hi]
    show (some (if 0 + i < MAX_LAZY_STACK then 0 + i else 255) = some 255 ↔ _)
    rcases Nat.lt_or_ge i MAX_LAZY_STACK with hlt | hge
    · rw [if_pos (by omega)]
      simp [MAX_LAZY_STACK] at hlt ⊢
      omega
    · rw [if_neg (by omega)]
      simp [hge]

/-- Witness for C3: the 17th call of a 17-call run from the empty stack is
the first to return the sentinel, and a concrete full stack of 16 arenas is
left unchanged by a further create. -/
theorem create_lazy_context_stack_full_witness :
    create_lazy_context (some 5) 9 ⟨List.replicate 16 ⟨0, 4, 0⟩⟩ =
        (255, ⟨List.replicate 16 ⟨0, 4, 0⟩⟩) ∧
    ((run_creates (List.replicate 17 (some 0, 8)) initStack).1[16]? =
        some 255 ↔ MAX_LAZY_STACK ≤ 16) ∧
    ((run_creates (List.replicate 17 (some 0, 8)) initStack).1[15]? =
        some 255 ↔ MAX_LAZY_STACK ≤ 15) :=
  ⟨create_lazy_context_stack_full.1 ⟨List.replicate 16 ⟨0, 4, 0⟩⟩ (some 5) 9
      (by decide),
   create_lazy_context_stack_full.2 (List.replicate 17 (some 0, 8))
      (by decide) 16 (by decide),
   create_lazy_context_stack_full.2 (List.replicate 17 (some 0, 8))
      (by decide) 15 (by decide)⟩

/-- C5: after `N ≤ MAX_LAZY_STACK` creates from the empty stack whose host
allocations all succeed, the depth is exactly `N` and the `i`-th call
(0-based) returned identifier `i`. -/
theorem create_lazy_context_ids_in_order (inputs : List (Option Nat × Nat))
    (hm : ∀ p ∈ inputs, p.1 ≠ none)
    (hN : inputs.length ≤ MAX_LAZY_STACK) :
    (run_creates inputs initStack).2.arenas.length = inputs.length ∧
    ∀ i, i < inputs.length → (run_creates inputs initStack).1[i]? = some i := by
  constructor
  · rw [run_creates_length inputs initStack hm (by simp [initStack])]
    show min (0 + inputs.length) MAX_LAZY_STACK = inputs.length
    omega
  · intro i hi
    rw [run_creates_get inputs initStack hm i hi]
    show some (if 0 + i < MAX_LAZY_STACK then 0 + i else 255) = some i
    rw [if_pos (by omega), Nat.zero_add]

/-- Witness for C5 with three creates: identifiers 0, 1, 2 and depth 3. -/
theorem create_lazy_context_ids_in_order_witness :
    (run_creates [(some 0, 4), (some 16, 8), (some 32, 2)]
        initStack).2.arenas.length = 3 ∧
    (run_creates [(some 0, 4), (some 16, 8), (some 32, 2)]
        initStack).1[0]? = some 0 ∧
    (run_creates [(some 0, 4), (some 16, 8), (some 32, 2)]
        initStack).1[2]? = some 2 := by
  have h := create_lazy_context_ids_in_order
    [(some 0, 4), (some 16, 8), (some 32, 2)] (by decide) (by decide)
  exact ⟨h.1, h.2 0 (by decide), h.2 2 (by decide)⟩

/-- A list with a last element is non-empty. -/
lemma length_pos_of_getLast?_some {α : Type _} {l : List α} {a : α}
    (h : l.getLast? = some a) : 0 < l.length := by
  cases l with
  | nil => simp at h
  | cons x t => simp

/-- C6: on a non-empty stack, `reset_lazy_context` zeroes the top arena's
offset while leaving its memory buffer and size — and every lower arena —
unchanged, and an immediately following `lazy_alloc` of the arena's full
size succeeds, returning the buffer's base pointer; on an empty stack the
reset is a no-op. -/
theorem reset_lazy_context_spec (s : LazyArenaStack) :
    (∀ a, s.arenas.getLast? = some a →
        reset_lazy_context s =
          ⟨s.arenas.dropLast ++
            [{ memory := a.memory, size := a.size, offset := 0 }]⟩ ∧
        (a.size < SIZE_MOD →
          (lazy_alloc a.size (reset_lazy_context s)).1 = some a.memory)) ∧
    (s.arenas = [] → reset_lazy_context s = s) := by
  constructor
  · intro a ha
    have hreset : reset_lazy_context s =
        ⟨s.arenas.dropLast ++ [{ a with offset := 0 }]⟩ := by
      simp [reset_lazy_context, ha]
    refine ⟨hreset, fun hsz => ?_⟩
    have hlast : (reset_lazy_context s).arenas.getLast? =
        some { a with offset := 0 } := by
      rw [hreset]
      exact List.getLast?_concat _
    have hmod : a.size % SIZE_MOD = a.size := Nat.mod_eq_of_lt hsz
    simp [lazy_alloc, hlast, hmod]
  · intro h
    simp [reset_lazy_context, h]

/-- Witness for C6: resetting a stack holding one arena of size 9 at
offset 7 zeroes the offset and a full-size request of 9 bytes then
succeeds, returning the buffer base. -/
theorem reset_lazy_context_spec_witness :
    reset_lazy_context ⟨[⟨40, 9, 7⟩]⟩ =
        ⟨[{ memory := 40, size := 9, offset := 0 }]⟩ ∧
    (lazy_alloc 9 (reset_lazy_context ⟨[⟨40, 9, 7⟩]⟩)).1 = some 40 := by
  have h := (reset_lazy_context_spec ⟨[⟨40, 9, 7⟩]⟩).1 ⟨40, 9, 7⟩ rfl
  exact ⟨h.1, h.2 (by decide)⟩

/-- C7: each of the four operations preserves the spec invariants: every
live arena keeps `0 ≤ offset ≤ size` and the depth stays between `0` and
`MAX_LAZY_STACK` (equivalently `-1 ≤ top ≤ MAX_LAZY_STACK - 1`). -/
theorem operations_preserve_stackWF (s : LazyArenaStack) (h : stackWF s)
    (mem : Option Nat) (csz asz k : Nat) :
    stackWF (create_lazy_context mem csz s).2 ∧
    stackWF (lazy_alloc asz s).2 ∧
    stackWF (reset_lazy_context s) ∧
    stackWF (destroy_lazy_context k s) := by
  obtain ⟨hmem, hlen⟩ := h
  refine ⟨?_, ?_, ?_, ?_⟩
  · by_cases hfull : MAX_LAZY_STACK ≤ s.arenas.length
    · rw [create_lazy_context_full s mem csz hfull]
      exact ⟨hmem, hlen⟩
    · cases mem with
      | none =>
          have hnone : create_lazy_context none csz s = (255, s) := by
            simp [create_lazy_context, hfull]
          rw [hnone]
          exact ⟨hmem, hlen⟩
      | some addr =>
          rw [create_lazy_context_push s addr csz hfull]
          refine ⟨?_, ?_⟩
          · intro a ha
            rcases List.mem_append.mp ha with h1 | h1
            · exact hmem a h1
            · have ha2 : a = ⟨addr, csz, 0⟩ := by simpa using h1
              subst ha2
              exact Nat.zero_le _
          · dsimp only
            rw [List.length_append]
            simp only [List.length_cons, List.length_nil]
            omega
  · cases hl : s.arenas.getLast? with
    | none =>
        have hempty : lazy_alloc asz s = (none, s) := by
          simp [lazy_alloc, hl]
        rw [hempty]
        exact ⟨hmem, hlen⟩
    | some a =>
        have hpos : 0 < s.arenas.length := length_pos_of_getLast?_some hl
        by_cases hc : a.size < (a.offset + asz) % SIZE_MOD
        · have hfail : lazy_alloc asz s = (none, s) := by
            simp [lazy_alloc, hl, hc]
          rw [hfail]
          exact ⟨hmem, hlen⟩
        · have hok : lazy_alloc asz s =
              (some (a.memory + a.offset),
               ⟨s.arenas.dropLast ++
                  [{ a with offset := (a.offset + asz) % SIZE_MOD }]⟩) := by
            simp [lazy_alloc, hl, hc]
          rw [hok]
          refine ⟨?_, ?_⟩
          · intro b hb
            rcases List.mem_append.mp hb with h1 | h1
            · exact hmem b ((List.dropLast_sublist s.arenas).subset h1)
            · have hb2 : b = { a with offset := (a.offset + asz) % SIZE_MOD } := by
                simpa using h1
              subst hb2
              exact Nat.le_of_not_lt hc
          · dsimp only
            rw [List.length_append, List.length_dropLast]
            simp only [List.length_cons, List.length_nil]
            omega
  · cases hl : s.arenas.getLast? with
    | none =>
        have hempty : reset_lazy_context s = s := by
          simp [reset_lazy_context, hl]
        rw [hempty]
        exact ⟨hmem, hlen⟩
    | some a =>
        have hpos : 0 < s.arenas.length := length_pos_of_getLast?_some hl
        have hreset : reset_lazy_context s =
            ⟨s.arenas.dropLast ++ [{ a with offset := 0 }]⟩ := by
          simp [reset_lazy_context, hl]
        rw [hreset]
        refine ⟨?_, ?_⟩
        · intro b hb
          rcases List.mem_append.mp hb with h1 | h1
          · exact hmem b ((List.dropLast_sublist s.arenas).subset h1)
          · have hb2 : b = { a with offset := 0 } := by simpa using h1
            subst hb2
            exact Nat.zero_le _
        · dsimp only
          rw [List.length_append, List.length_dropLast]
          simp only [List.length_cons, List.length_nil]
          omega
  · by_cases h0 : s.arenas.length = 0
    · simp only [destroy_lazy_context, if_pos h0]
      exact ⟨hmem, hlen⟩
    · have hd : destroy_lazy_context k s = ⟨s.arenas.take k⟩ := by
        simp [destroy_lazy_context, h0]
      rw [hd]
      refine ⟨?_, ?_⟩
      · intro b hb
        exact hmem b ((List.take_sublist k s.arenas).subset hb)
      · dsimp only
        rw [List.length_take]
        omega

/-- Witness for C7 on a concrete well-formed stack of one arena. -/
theorem operations_preserve_stackWF_witness :
    stackWF (create_lazy_context (some 50) 5 ⟨[⟨0, 10, 3⟩]⟩).2 ∧
    stackWF (lazy_alloc 2 ⟨[⟨0, 10, 3⟩]⟩).2 ∧
    stackWF (reset_lazy_context ⟨[⟨0, 10, 3⟩]⟩) ∧
    stackWF (destroy_lazy_context 0 ⟨[⟨0, 10, 3⟩]⟩) :=
  operations_preserve_stackWF ⟨[⟨0, 10, 3⟩]⟩ (by decide) (some 50) 5 2 0

end LazyAlloc
